import Mathlib

/-!
Verification of the keystroke-to-syllable transformation engine in
`bogo/bogo.py` (the ibus-bogo transformation core).

The file embeds the source shallowly: the core functions `process_key`,
`get_transformation_list`, `get_action`, `transform`, `reverse` and
`can_undo` are translated from `bogo/bogo.py`.  The collaborator modules
(`utils`, `accent`, `mark`, `valid_vietnamese`) are not part of the source
tree; each of their operations is modelled from the specification's
interface contracts and is marked `Modelled from the spec:` in its doc
comment.  Python exceptions (IndexError on an empty string, unpacking a
`None` action, an unbound translation table) are modelled by `Option`:
a crashing call is `none`.

Strings are `List Char`; `lc` converts a literal.
-/

abbrev Str := List Char

def lc (s : String) : Str := s.data

/-- Diacritical marks, as in the `mark` module (`Mark.HAT` etc. in the source). -/
inductive Mark where
  | NONE | HAT | BREVE | HORN | BAR
deriving DecidableEq, Repr

/-- Tonal accents, as in the `accent` module (`Accent.TIDLE` keeps the
source's spelling). -/
inductive Accent where
  | NONE | GRAVE | ACUTE | HOOK | TIDLE | DOT
deriving DecidableEq, Repr

/-- One row of the Vietnamese character database: the character, its base
letter (case kept), its mark and its tonal accent. -/
structure VEntry where
  c : Char
  b : Char
  m : Mark
  a : Accent
deriving DecidableEq, Repr

/-- The six accent variants (none, grave, acute, hook, tilde, dot) of one
base-letter/mark combination, given as a six-character string. -/
def accSeries (b : Char) (m : Mark) (s : String) : List VEntry :=
  (s.data.zip [Accent.NONE, Accent.GRAVE, Accent.ACUTE, Accent.HOOK, Accent.TIDLE, Accent.DOT]).map
    (fun p => ⟨p.1, b, m, p.2⟩)

/-- The Vietnamese character database: every accent/mark variant of the
twelve vowels, plus d/đ. -/
def charTable : List VEntry :=
  accSeries 'a' Mark.NONE ("aàáảãạ") ++ accSeries 'a' Mark.HAT ("âầấẩẫậ") ++
  accSeries 'a' Mark.BREVE ("ăằắẳẵặ") ++
  accSeries 'e' Mark.NONE ("eèéẻẽẹ") ++ accSeries 'e' Mark.HAT ("êềếểễệ") ++
  accSeries 'i' Mark.NONE ("iìíỉĩị") ++
  accSeries 'o' Mark.NONE ("oòóỏõọ") ++ accSeries 'o' Mark.HAT ("ôồốổỗộ") ++
  accSeries 'o' Mark.HORN ("ơờớởỡợ") ++
  accSeries 'u' Mark.NONE ("uùúủũụ") ++ accSeries 'u' Mark.HORN ("ưừứửữự") ++
  accSeries 'y' Mark.NONE ("yỳýỷỹỵ") ++
  accSeries 'A' Mark.NONE ("AÀÁẢÃẠ") ++ accSeries 'A' Mark.HAT ("ÂẦẤẨẪẬ") ++
  accSeries 'A' Mark.BREVE ("ĂẰẮẲẴẶ") ++
  accSeries 'E' Mark.NONE ("EÈÉẺẼẸ") ++ accSeries 'E' Mark.HAT ("ÊỀẾỂỄỆ") ++
  accSeries 'I' Mark.NONE ("IÌÍỈĨỊ") ++
  accSeries 'O' Mark.NONE ("OÒÓỎÕỌ") ++ accSeries 'O' Mark.HAT ("ÔỒỐỔỖỘ") ++
  accSeries 'O' Mark.HORN ("ƠỜỚỞỠỢ") ++
  accSeries 'U' Mark.NONE ("UÙÚỦŨỤ") ++ accSeries 'U' Mark.HORN ("ƯỪỨỬỮỰ") ++
  accSeries 'Y' Mark.NONE ("YỲÝỶỸỴ") ++
  [⟨'d', 'd', Mark.NONE, Accent.NONE⟩, ⟨'D', 'D', Mark.NONE, Accent.NONE⟩,
   ⟨'đ', 'd', Mark.BAR, Accent.NONE⟩, ⟨'Đ', 'D', Mark.BAR, Accent.NONE⟩]

def findEntry (c : Char) : Option VEntry :=
  charTable.find? (fun e => decide (e.c = c))

/-- The character with the given base letter, mark and accent, when the
combination exists in the database. -/
def composeChar (b : Char) (m : Mark) (a : Accent) : Option Char :=
  (charTable.find? (fun e => decide (e.b = b) && decide (e.m = m) && decide (e.a = a))).map
    (fun e => e.c)

/-- The ASCII upper/lower case pairing, as an explicit table. -/
def asciiUpperLower : List (Char × Char) :=
  [('A', 'a'), ('B', 'b'), ('C', 'c'), ('D', 'd'), ('E', 'e'), ('F', 'f'),
   ('G', 'g'), ('H', 'h'), ('I', 'i'), ('J', 'j'), ('K', 'k'), ('L', 'l'),
   ('M', 'm'), ('N', 'n'), ('O', 'o'), ('P', 'p'), ('Q', 'q'), ('R', 'r'),
   ('S', 's'), ('T', 't'), ('U', 'u'), ('V', 'v'), ('W', 'w'), ('X', 'x'),
   ('Y', 'y'), ('Z', 'z')]

def asciiLower (c : Char) : Char :=
  ((asciiUpperLower.find? (fun p => decide (p.1 = c))).map (fun p => p.2)).getD c

def asciiUpper (c : Char) : Char :=
  ((asciiUpperLower.find? (fun p => decide (p.2 = c))).map (fun p => p.1)).getD c

def isAsciiUpper (c : Char) : Bool :=
  (asciiUpperLower.find? (fun p => decide (p.1 = c))).isSome

def isAsciiLower (c : Char) : Bool :=
  (asciiUpperLower.find? (fun p => decide (p.2 = c))).isSome

/-- Python's `str.lower()` on one character, Vietnamese-aware. -/
def vToLower (c : Char) : Char :=
  match findEntry c with
  | some e => if isAsciiUpper e.b then (composeChar (asciiLower e.b) e.m e.a).getD c else c
  | none => asciiLower c

/-- Python's `str.upper()` on one character, Vietnamese-aware. -/
def vToUpper (c : Char) : Char :=
  match findEntry c with
  | some e => if isAsciiLower e.b then (composeChar (asciiUpper e.b) e.m e.a).getD c else c
  | none => asciiUpper c

/-- Python's `str.isupper()` on one character. -/
def isUpperChar (c : Char) : Bool :=
  match findEntry c with
  | some e => isAsciiUpper e.b
  | none => isAsciiUpper c

/-- Python's `str.isalpha()` restricted to the letters the engine handles. -/
def isalpha (c : Char) : Bool :=
  (findEntry c).isSome || isAsciiUpper c || isAsciiLower c

def baseOf (c : Char) : Char :=
  ((findEntry c).map (fun e => e.b)).getD c

def isVowelChar (c : Char) : Bool :=
  vToLower (baseOf c) ∈ ['a', 'e', 'i', 'o', 'u', 'y']

/-- A syllable under construction: the source's component triple
`[onset, nucleus, coda]` (`comps[0..2]`). -/
structure Comps where
  c0 : Str
  c1 : Str
  c2 : Str
deriving DecidableEq, Repr

/-- Modelled from the spec: `join(components) -> text` — concatenation in
order reconstructs the full on-screen word (`utils.join`). -/
def join (c : Comps) : Str := c.c0 ++ c.c1 ++ c.c2

/-- Modelled from the spec: `split(text) -> (onset, nucleus, coda)` —
leading consonant cluster, vowel cluster, trailing consonants
(`utils.separate`). -/
def separate (s : Str) : Comps :=
  let onset := s.takeWhile (fun c => !isVowelChar c)
  let rest := s.dropWhile (fun c => !isVowelChar c)
  ⟨onset, rest.takeWhile isVowelChar, rest.dropWhile isVowelChar⟩

/-- Modelled from the spec: `append(components, char)` — inserts the
character into the linguistically correct slot (`utils.append_comps`):
into a non-empty coda; a vowel into the nucleus while the coda is empty;
a consonant into the onset while the nucleus is empty, and otherwise it
starts the coda. -/
def append_comps (c : Comps) (ch : Char) : Comps :=
  if c.c2 ≠ [] then { c with c2 := c.c2 ++ [ch] }
  else if isVowelChar ch then { c with c1 := c.c1 ++ [ch] }
  else if c.c1 = [] then { c with c0 := c.c0 ++ [ch] }
  else { c with c2 := [ch] }

/-- Modelled from the spec: `changeCase(text, wantUpper)` on one character
(`utils.change_case`). -/
def change_case (c : Char) (upper : Bool) : Char :=
  if upper then vToUpper c else vToLower c

/-- Modelled from the spec: `getAccentCharOf(char)` (`accent.get_accent_char`). -/
def get_accent_char (c : Char) : Accent :=
  ((findEntry c).map (fun e => e.a)).getD Accent.NONE

/-- Modelled from the spec: `getMarkCharOf(char)` (`mark.get_mark_char`). -/
def get_mark_char (c : Char) : Mark :=
  ((findEntry c).map (fun e => e.m)).getD Mark.NONE

/-- Modelled from the spec: strip the tonal accent from one character,
keeping its mark and case (`accent.remove_accent_char`). -/
def remove_accent_char (c : Char) : Char :=
  match findEntry c with
  | some e => (composeChar e.b e.m Accent.NONE).getD c
  | none => c

/-- Modelled from the spec: `stripAccent(text)` charwise
(`accent.remove_accent_string`). -/
def remove_accent_string (s : Str) : Str := s.map remove_accent_char

/-- Modelled from the spec: give one character the requested mark, keeping
its base letter, case and accent, when the combination exists
(`mark.add_mark_char`; with `Mark.NONE` it strips the mark). -/
def add_mark_char (c : Char) (m : Mark) : Char :=
  match findEntry c with
  | some e => (composeChar e.b m e.a).getD c
  | none => c

/-- Modelled from the spec: `strip(text)` — the nucleus as compared in the
oe/oa special case, read by the spec as "accent-stripped" as well as
mark-stripped (`mark.strip`). -/
def markStrip (s : Str) : Str :=
  s.map (fun c => (composeChar (baseOf c) Mark.NONE Accent.NONE).getD c)

/-- Modelled from the spec: `getAccentOf(nucleus)` — the tonal accent the
nucleus carries (`accent.get_accent_string`). -/
def get_accent_string (s : Str) : Accent :=
  ((s.map get_accent_char).find? (fun a => decide (a ≠ Accent.NONE))).getD Accent.NONE

/-- Modelled from the spec: position a character's accent variant
(`composeChar` with fallback). -/
def setAccentChar (c : Char) (a : Accent) : Char :=
  match findEntry c with
  | some e => (composeChar e.b e.m a).getD c
  | none => c

/-- Modelled from the spec: `setAccent` — clear the nucleus's tonal accent
and, for a non-None accent, place it on the preferred vowel: the last
marked letter if any, else the penultimate letter of an open syllable,
else the last letter (`accent.add_accent`). -/
def add_accent (c : Comps) (a : Accent) : Comps :=
  let nu := c.c1.map remove_accent_char
  if a = Accent.NONE ∨ nu = [] then { c with c1 := nu }
  else
    let marked := (List.range nu.length).filter (fun i => decide (get_mark_char (nu.getD i ' ') ≠ Mark.NONE))
    let pos :=
      match marked.getLast? with
      | some i => i
      | none => if c.c2 = [] ∧ 2 ≤ nu.length then nu.length - 2 else nu.length - 1
    { c with c1 := nu.set pos (setAccentChar (nu.getD pos ' ') a) }

/-- Modelled from the spec: `markIsLegal(components, markToken)` — the Bar
token (`"d-"`) needs an onset ending in d/đ; any other mark token needs a
nucleus whose stripped lower-case form contains the token's letter
(`mark.is_valid_mark`; the source's own doctest requires the guard to,
in particular, accept a mark that is already present, so that `reverse`
can strip it). -/
def is_valid_mark (c : Comps) (trans : Str) : Bool :=
  match trans with
  | [] => false
  | t0 :: _ =>
    if t0 = 'd' then
      decide (c.c0 ≠ []) && decide (vToLower (c.c0.getLastD ' ') ∈ ['d', 'đ'])
    else
      decide (c.c1 ≠ []) && ((markStrip c.c1).map vToLower).contains t0

/-- Modelled from the spec: `setMark(components, mark)` — Bar targets the
final onset letter (d → đ); any other mark is applied charwise to the
nucleus, rewriting each letter that can carry it and keeping case and
accent (`mark.add_mark`). -/
def add_mark (c : Comps) (m : Mark) : Comps :=
  if m = Mark.BAR then
    { c with c0 := c.c0.dropLast ++ (((c.c0.getLast?).map (fun x => [add_mark_char x Mark.BAR])).getD []) }
  else
    { c with c1 := c.c1.map (fun x => add_mark_char x m) }

/-- Modelled from the spec: the Syllable Validity Oracle
`isValidPartialSyllable(components)` (`is_valid_combination` with
`final_form=False`): the onset must be a Vietnamese onset cluster, the
accent-stripped lower-cased nucleus a Vietnamese vowel cluster (or still
empty, with an empty coda), and the coda a Vietnamese final consonant. -/
def is_valid_combination (c : Comps) (finalForm : Bool) : Bool :=
  let _ := finalForm
  let onsets : List Str :=
    [[], lc ("b"), lc ("c"), lc ("ch"), lc ("d"), lc ("đ"), lc ("g"), lc ("gh"),
     lc ("gi"), lc ("h"), lc ("k"), lc ("kh"), lc ("l"), lc ("m"), lc ("n"),
     lc ("ng"), lc ("ngh"), lc ("nh"), lc ("p"), lc ("ph"), lc ("q"), lc ("qu"),
     lc ("r"), lc ("s"), lc ("t"), lc ("th"), lc ("tr"), lc ("v"), lc ("x")]
  let nuclei : List Str :=
    [lc ("a"), lc ("ă"), lc ("â"), lc ("e"), lc ("ê"), lc ("i"), lc ("o"),
     lc ("ô"), lc ("ơ"), lc ("u"), lc ("ư"), lc ("y"),
     lc ("ai"), lc ("ao"), lc ("au"), lc ("ay"), lc ("âu"), lc ("ây"),
     lc ("eo"), lc ("êu"), lc ("ia"), lc ("iê"), lc ("iu"), lc ("oa"),
     lc ("oă"), lc ("oe"), lc ("oi"), lc ("ôi"), lc ("ơi"), lc ("oo"),
     lc ("ua"), lc ("uâ"), lc ("uê"), lc ("ui"), lc ("uô"), lc ("uơ"),
     lc ("uy"), lc ("ưa"), lc ("ưi"), lc ("ưu"), lc ("ươ"), lc ("ya"),
     lc ("yê"), lc ("iêu"), lc ("yêu"), lc ("oai"), lc ("oay"), lc ("oeo"),
     lc ("uây"), lc ("uôi"), lc ("uya"), lc ("uyê"), lc ("uyu"), lc ("ươi"),
     lc ("ươu")]
  let codas : List Str :=
    [[], lc ("c"), lc ("ch"), lc ("m"), lc ("n"), lc ("ng"), lc ("nh"),
     lc ("p"), lc ("t")]
  let nuNorm := (c.c1.map remove_accent_char).map vToLower
  (c.c0.map vToLower) ∈ onsets &&
    (if nuNorm = [] then decide (c.c2 = []) else nuNorm ∈ nuclei) &&
    (c.c2.map vToLower) ∈ codas

/-- The decoded form of a transformation token-string: the source's
`(Action, parameter)` pair (`class Action` plus the value returned next to
it by `get_action`). -/
inductive BAction where
  | ADD_CHAR (c : Char)
  | ADD_ACCENT (a : Accent)
  | ADD_MARK (m : Mark)
  | UNDO (inner : Str)
deriving DecidableEq, Repr

/-- `get_action` (bogo.py lines 234-269): decode a token-string.  A shape
the chain does not recognise falls off the end of the Python function and
yields `None`, here `none`; an out-of-range `trans[1]` on a bare `<`/`+`
is likewise `none`. -/
def get_action : Str → Option BAction
  | [] => none
  | t0 :: rest =>
    if t0 = '<' ∨ t0 = '+' then
      match rest with
      | p :: _ => some (BAction.ADD_CHAR p)
      | [] => none
    else if t0 = '_' then some (BAction.UNDO rest)
    else if rest.length = 1 then
      match rest with
      | [t1] =>
        if t1 = '^' then some (BAction.ADD_MARK Mark.HAT)
        else if t1 = '+' then some (BAction.ADD_MARK Mark.BREVE)
        else if t1 = '*' then some (BAction.ADD_MARK Mark.HORN)
        else if t1 = '-' then some (BAction.ADD_MARK Mark.BAR)
        else none
      | _ => none
    else
      if t0 = '\\' then some (BAction.ADD_ACCENT Accent.GRAVE)
      else if t0 = '/' then some (BAction.ADD_ACCENT Accent.ACUTE)
      else if t0 = '?' then some (BAction.ADD_ACCENT Accent.HOOK)
      else if t0 = '~' then some (BAction.ADD_ACCENT Accent.TIDLE)
      else if t0 = '.' then some (BAction.ADD_ACCENT Accent.DOT)
      else none

/-- One value of an input-method table: a single token-string or an
ordered candidate list, as in `default_config`. -/
inductive IMEntry where
  | one (t : Str)
  | many (ts : List Str)
deriving DecidableEq, Repr

/-- An input-method table: the key-to-entry mapping of one method.  Python
dict keys are unique; order models insertion order. -/
abbrev IMTable := List (Char × IMEntry)

def lookupIM : IMTable → Char → Option IMEntry
  | [], _ => none
  | (k, e) :: rest, c => if c = k then some e else lookupIM rest c

/-- Replacement of the entry stored under a key: the observable effect of
the source's in-place assignment `trans_list[i] = ...` into the list
object aliased from the table (bogo.py line 214 writes through the alias
created at line 208). -/
def imUpdate : IMTable → Char → IMEntry → IMTable
  | [], _, _ => []
  | (k, e) :: rest, c, e' => if c = k then (k, e') :: rest else (k, e) :: imUpdate rest c e'

/-- The built-in `simple-telex` table of `default_config`. -/
def simpleTelexIM : IMTable :=
  [('a', IMEntry.one (lc ("a^"))), ('o', IMEntry.one (lc ("o^"))),
   ('e', IMEntry.one (lc ("e^"))),
   ('w', IMEntry.many [lc ("u*"), lc ("o*"), lc ("a+")]),
   ('d', IMEntry.one (lc ("d-"))), ('f', IMEntry.one (lc ("\\"))),
   ('s', IMEntry.one (lc ("/"))), ('r', IMEntry.one (lc ("?"))),
   ('x', IMEntry.one (lc ("~"))), ('j', IMEntry.one (lc (".")))]

/-- The built-in `telex` table of `default_config`. -/
def telexIM : IMTable :=
  [('a', IMEntry.one (lc ("a^"))), ('o', IMEntry.one (lc ("o^"))),
   ('e', IMEntry.one (lc ("e^"))),
   ('w', IMEntry.many [lc ("u*"), lc ("o*"), lc ("a+"), lc ("<ư")]),
   ('d', IMEntry.one (lc ("d-"))), ('f', IMEntry.one (lc ("\\"))),
   ('s', IMEntry.one (lc ("/"))), ('r', IMEntry.one (lc ("?"))),
   ('x', IMEntry.one (lc ("~"))), ('j', IMEntry.one (lc ("."))),
   (']', IMEntry.one (lc ("<ư"))), ('[', IMEntry.one (lc ("<ơ"))),
   ('}', IMEntry.one (lc ("<Ư"))), ('{', IMEntry.one (lc ("<Ơ")))]

/-- The built-in `vni` table of `default_config`. -/
def vniIM : IMTable :=
  [('6', IMEntry.many [lc ("a^"), lc ("o^"), lc ("e^")]),
   ('7', IMEntry.many [lc ("u*"), lc ("o*")]),
   ('8', IMEntry.one (lc ("a+"))), ('9', IMEntry.one (lc ("d-"))),
   ('2', IMEntry.one (lc ("\\"))), ('1', IMEntry.one (lc ("/"))),
   ('3', IMEntry.one (lc ("?"))), ('4', IMEntry.one (lc ("~"))),
   ('5', IMEntry.one (lc (".")))]

/-- The configuration record consumed by one call, after the source's
defaulting/merging preamble (bogo.py lines 126-131): the active method
name, the skip-non-vietnamese flag, and the built-in and custom tables. -/
structure Config where
  inputMethod : Str
  skipNonViet : Bool
  defaultIMs : List (Str × IMTable)
  customIMs : Option (List (Str × IMTable))
deriving DecidableEq, Repr

def lookupStr : List (Str × IMTable) → Str → Option IMTable
  | [], _ => none
  | (k, t) :: rest, s => if s = k then some t else lookupStr rest s

/-- `default_config` as a `Config`. -/
def defaultConfig : Config :=
  { inputMethod := lc ("telex"), skipNonViet := true,
    defaultIMs := [(lc ("simple-telex"), simpleTelexIM), (lc ("telex"), telexIM),
                   (lc ("vni"), vniIM)],
    customIMs := none }

/-- The per-candidate case adjustment of `get_transformation_list`
(bogo.py lines 212-215): a `<`-token has its letter case-matched to the
typed key.  The source keeps only `trans[0]` and `trans[1]`; a bare `<`
(on which the source would fail) is left unchanged. -/
def adjustTrans (key : Char) (t : Str) : Str :=
  match t with
  | '<' :: p :: _ => if isalpha key then ['<', change_case p (isUpperChar key)] else t
  | _ => t

/-- `get_transformation_list` (bogo.py lines 191-231) with an explicit
fuel bounding the `['_']` recursion (the source recurses on
`fallback_sequence[:-1]`, strictly shorter, so `fallback.length` fuel is
never exhausted).  A list-valued entry is aliased by the source and the
case adjustment writes through the alias, so the updated table is
returned alongside the candidate list. -/
def gtlAux : Nat → Char → IMTable → Str → (List Str × IMTable)
  | fuel, key, im, fb =>
    let lkey := vToLower key
    match lookupIM im lkey with
    | none => ([['+', key]], im)
    | some e =>
      let p :=
        match e with
        | IMEntry.one t => ([adjustTrans key t], im)
        | IMEntry.many ts0 =>
          let ts := ts0.map (adjustTrans key)
          (ts, imUpdate im lkey (IMEntry.many ts))
      if p.1 = [['_']] ∧ 2 ≤ fb.length then
        match fuel with
        | 0 => p
        | fuel' + 1 =>
          let fb' := fb.dropLast
          let q := gtlAux fuel' (fb'.getLastD ' ') p.2 fb'
          (q.1.map (fun t => '_' :: t), q.2)
      else p

def get_transformation_list (key : Char) (im : IMTable) (fb : Str) : (List Str × IMTable) :=
  gtlAux fb.length key im fb

/-- `reverse` (bogo.py lines 342-371): undo the effect of a token.  For an
`ADD_CHAR` token the source reads `string[-1]` with no emptiness guard, so
the empty word is an IndexError, modelled as `none`; an unreadable token
is the `None`-unpacking failure, also `none`. -/
def reverse (components : Comps) (trans : Str) : Option Comps :=
  match get_action trans with
  | none => none
  | some act =>
    match act with
    | BAction.ADD_CHAR p =>
      match (join components).getLast? with
      | none => none
      | some last =>
        if vToLower last = vToLower p then
          if components.c2 ≠ [] then some { components with c2 := components.c2.dropLast }
          else if components.c1 ≠ [] then some { components with c1 := components.c1.dropLast }
          else some { components with c0 := components.c0.dropLast }
        else some components
    | BAction.ADD_ACCENT _ => some (add_accent components Accent.NONE)
    | BAction.ADD_MARK m =>
      if m = Mark.BAR then
        some { components with
               c0 := components.c0.dropLast ++
                 (((components.c0.getLast?).map (fun x => [add_mark_char x Mark.NONE])).getD []) }
      else
        if is_valid_mark components trans then
          some { components with c1 := components.c1.map (fun x => add_mark_char x Mark.NONE) }
        else some components
    | BAction.UNDO _ => some components

/-- One disjunct of `can_undo`'s `atomic_check` (bogo.py lines 384-392).
The `ADD_CHAR` arm reads `comps[1][-1]`, an IndexError on an empty
nucleus, modelled as `none`; a `None` action is the `None[0]` failure. -/
def atomic_check (accentList : List Accent) (markList : List Mark) (comps : Comps) :
    Option BAction → Option Bool
  | none => none
  | some (BAction.ADD_ACCENT a) => some (accentList.contains a)
  | some (BAction.ADD_MARK m) => some (markList.contains m)
  | some (BAction.ADD_CHAR p) =>
    match comps.c1.getLast? with
    | none => none
    | some l => some (decide (p = remove_accent_char l))
  | some (BAction.UNDO _) => some false

/-- Python's lazy `any`: stop at the first `True`; a failing check aborts. -/
def anyOpt : List (Option BAction) → (Option BAction → Option Bool) → Option Bool
  | [], _ => some false
  | a :: rest, f =>
    match f a with
    | none => none
    | some true => some true
    | some false => anyOpt rest f

/-- `can_undo` (bogo.py lines 374-394): whether some candidate's effect is
already observable in the components. -/
def can_undo (comps : Comps) (transList : List Str) : Option Bool :=
  let accentList := comps.c1.map get_accent_char
  let markList := (join comps).map get_mark_char
  anyOpt (transList.map get_action) (atomic_check accentList markList comps)

/-- The accent renormalisation closing `transform` (bogo.py lines 329-336):
capture the nucleus accent and, if present, clear and re-apply it. -/
def renorm (c : Comps) : Comps :=
  let ac := get_accent_string c.c1
  if ac ≠ Accent.NONE then add_accent (add_accent c Accent.NONE) ac else c

/-- The uơ→ươ promotion inside `transform`'s plain `ADD_CHAR` arm
(bogo.py lines 320-325). -/
def promoteUo (c : Comps) : Comps :=
  let ac := get_accent_string c.c1
  let nu' :=
    match c.c1 with
    | x0 :: x1 :: rest =>
      (if isUpperChar x0 then 'Ư' else 'ư') :: (if isUpperChar x1 then 'Ơ' else 'ơ') :: rest
    | l => l
  add_accent { c with c1 := nu' } ac

/-- The ươ→uơ demotion inside `transform`'s `ADD_MARK` arm (bogo.py lines
298-303): rewrite the nucleus's first letter to u, keep its second letter,
and re-apply the accent held before the rewrite. -/
def demoteUo (c : Comps) : Comps :=
  let ac := get_accent_string c.c1
  let nu' :=
    match c.c1 with
    | x0 :: x1 :: _ => (if isUpperChar x0 then 'U' else 'u') :: [x1]
    | l => l
  add_accent { c with c1 := nu' } ac

/-- `transform` (bogo.py lines 272-339): apply one token to the
components under the orthographic guards. -/
def transform (comps : Comps) (trans : Str) : Option Comps :=
  match get_action trans with
  | none => none
  | some act0 =>
    let act :=
      match act0 with
      | BAction.ADD_MARK _ =>
        if comps.c2 = [] ∧ ((markStrip comps.c1).map vToLower) ∈ [lc ("oe"), lc ("oa")] ∧
            trans = lc ("o^") then
          BAction.ADD_CHAR 'o'
        else act0
      | _ => act0
    let step : Option Comps :=
      match act with
      | BAction.ADD_ACCENT a => some (add_accent comps a)
      | BAction.ADD_MARK m =>
        if is_valid_mark comps trans then
          let mid := add_mark comps m
          if ((remove_accent_string mid.c1).map vToLower) = lc ("ươ") ∧ mid.c2 = [] ∧
              (mid.c0.map vToLower) ∈ [([] : Str), lc ("h"), lc ("th"), lc ("kh")] then
            some (demoteUo mid)
          else some mid
        else some comps
      | BAction.ADD_CHAR p =>
        if trans.headD ' ' = '<' then
          if comps.c2 = [] then
            let cgi :=
              if (comps.c0.map vToLower, comps.c1.map vToLower) = (lc ("g"), lc ("i")) then
                { comps with c0 := comps.c0 ++ comps.c1, c1 := [] }
              else comps
            if cgi.c1 = [] ∨ (cgi.c1.map vToLower = lc ("ư") ∧ vToLower p = 'ơ') then
              some { cgi with c1 := cgi.c1 ++ [p] }
            else some cgi
          else some comps
        else
          let ap := append_comps comps p
          if isalpha p ∧ ((remove_accent_string ap.c1).map vToLower).take 2 = lc ("uơ") then
            some (promoteUo ap)
          else some ap
      | BAction.UNDO inner => reverse comps inner
    match step with
    | none => none
    | some c1 =>
      let doRenorm :=
        match act with
        | BAction.ADD_MARK _ => true
        | BAction.ADD_CHAR p => isalpha p
        | _ => false
      if doRenorm then some (renorm c1) else some c1

/-- The table resolution of `process_key` (bogo.py lines 134-138): the
active method name is looked up among the built-in tables, then among the
custom tables if any.  When both fail, `im` stays unbound and the call
fails at line 147 (an UnboundLocalError), modelled as `none`. -/
def pk_lookup_im (config : Config) : Option IMTable :=
  match lookupStr config.defaultIMs config.inputMethod with
  | some im => some im
  | none =>
    match config.customIMs with
    | some cim => lookupStr cim config.inputMethod
    | none => none

/-- The telex double-`w` compensation condition of `process_key` (bogo.py
lines 167-172). -/
def telexWwCond (config : Config) (key : Char) (fb : Str) (c : Comps) : Prop :=
  config.inputMethod = lc ("telex") ∧ 1 ≤ fb.length ∧ c.c1 ≠ [] ∧
    vToLower (c.c1.getLastD ' ') = 'u' ∧
    vToLower (fb.getLastD ' ') = 'w' ∧ vToLower key = 'w' ∧
    ¬(2 ≤ fb.length ∧ vToLower (fb.getD (fb.length - 2) ' ') = 'u')

instance (config : Config) (key : Char) (fb : Str) (c : Comps) :
    Decidable (telexWwCond config key fb c) := by
  unfold telexWwCond; infer_instance

/-- The undo block of `process_key` (bogo.py lines 159-173), entered when
folding the candidates changed nothing: if `can_undo` agrees, fold the
`_`-prefixed candidates and apply the telex double-`w` compensation. -/
def pk_undo_comps (config : Config) (key : Char) (fb : Str) (transList : List Str)
    (nc : Comps) : Option Comps :=
  match can_undo nc transList with
  | none => none
  | some false => some nc
  | some true =>
    match (transList.map (fun t => '_' :: t)).foldlM transform nc with
    | none => none
    | some nc2 =>
      if telexWwCond config key fb nc2 then some { nc2 with c1 := nc2.c1.dropLast }
      else some nc2

/-- `process_key` up to (excluding) the validity gate (bogo.py lines
134-179): the components and fallback sequence handed to the gate. -/
def pk_pre_gate (s : Str) (key : Char) (fb : Str) (config : Config) :
    Option (Comps × Str) :=
  match pk_lookup_im config with
  | none => none
  | some im =>
    let comps := separate s
    let transList := (get_transformation_list key im fb).1
    match transList.foldlM transform comps with
    | none => none
    | some newComps =>
      if newComps = comps then
        match pk_undo_comps config key fb transList newComps with
        | none => none
        | some nc =>
          let fb' := if newComps = nc then fb ++ [key] else fb
          some (append_comps nc key, fb')
      else
        some (newComps, fb ++ [key])

/-- `process_key` (bogo.py lines 98-188): the engine's single entry point.
`none` models a raising call. -/
def process_key (s : Str) (key : Char) (fb : Str) (config : Config) :
    Option (Str × Str) :=
  match pk_pre_gate s key fb config with
  | none => none
  | some (nc, fb') =>
    if config.skipNonViet = true ∧ isalpha key = true ∧
        is_valid_combination nc false = false then
      some (fb', fb')
    else
      some (join nc, fb')

/-- The telex table after the resolver has processed the key `W`: the
aliased candidate list of `w` now stores the upper-cased literal token. -/
def telexMutated : IMTable :=
  [('a', IMEntry.one (lc ("a^"))), ('o', IMEntry.one (lc ("o^"))),
   ('e', IMEntry.one (lc ("e^"))),
   ('w', IMEntry.many [lc ("u*"), lc ("o*"), lc ("a+"), lc ("<Ư")]),
   ('d', IMEntry.one (lc ("d-"))), ('f', IMEntry.one (lc ("\\"))),
   ('s', IMEntry.one (lc ("/"))), ('r', IMEntry.one (lc ("?"))),
   ('x', IMEntry.one (lc ("~"))), ('j', IMEntry.one (lc ("."))),
   (']', IMEntry.one (lc ("<ư"))), ('[', IMEntry.one (lc ("<ơ"))),
   ('}', IMEntry.one (lc ("<Ư"))), ('{', IMEntry.one (lc ("<Ơ")))]

/-- The default configuration as observed after the key `W` mutated the
built-in telex table. -/
def mutatedConfig : Config :=
  { defaultConfig with
    defaultIMs := [(lc ("simple-telex"), simpleTelexIM), (lc ("telex"), telexMutated),
                   (lc ("vni"), vniIM)] }

/-- A configuration whose active method exists only in the custom tables
and maps the key q to the unrecognisable token-string `zz`. -/
def malformedConfig : Config :=
  { defaultConfig with
    inputMethod := lc ("bad"),
    customIMs := some [(lc ("bad"), [('q', IMEntry.one (lc ("zz")))])] }

/-- A configuration naming an input method that exists neither among the
built-in nor the custom tables. -/
def unknownMethodConfig : Config :=
  { defaultConfig with inputMethod := lc ("nope") }

/-- C1: under the default Telex method, `process_key("a", "a", "a")`
returns `("â", "aa")` — the nucleus gets the circumflex mark — and
`process_key("â", "a", "aa")` returns `("aa", "aa")` — re-pressing the
trigger key undoes the mark back to the pre-mark letter sequence, and the
undo keystroke is not appended to the history. -/
theorem C1_round_trip :
    process_key (lc ("a")) 'a' (lc ("a")) defaultConfig = some (lc ("â"), lc ("aa")) ∧
    process_key (lc ("â")) 'a' (lc ("aa")) defaultConfig = some (lc ("aa"), lc ("aa")) := by
  decide

/-- C3 counterexample: on the call `process_key("a", "a", "a")` the folded
candidates already changed the components (to the bare circumflexed
nucleus), the pre-gate components are exactly that fold result, and they
are not `append_comps` of the fold result with the typed key — so the raw
key is *not* appended to the components in the branch where a candidate
transformation changed them. -/
theorem C3_counterexample :
    ((get_transformation_list 'a' telexIM (lc ("a"))).1).foldlM transform
        (separate (lc ("a"))) = some ⟨[], lc ("â"), []⟩ ∧
    pk_pre_gate (lc ("a")) 'a' (lc ("a")) defaultConfig = some (⟨[], lc ("â"), []⟩, lc ("aa")) ∧
    append_comps ⟨[], lc ("â"), []⟩ 'a' ≠ ⟨[], lc ("â"), []⟩ := by
  decide

/-- C4 counterexample: resolving the key `W` against the built-in telex
table hands back a table that differs from the one supplied — the source's
in-place case adjustment of the aliased candidate list mutates the table,
so `process_key` is not free of caller-visible/global mutation. -/
theorem C4_counterexample :
    (get_transformation_list 'W' telexIM []).2 = telexMutated ∧ telexMutated ≠ telexIM := by
  decide

/-- C7 counterexample: for the direct sequence u, w, w (third call:
displayed `ư`, key `w`, history `uw`) the undo phase does undo the horn
(the nucleus reverts to `u`) but does **not** remove the trailing `u` —
the compensation is disabled because the key before the two triggers was
itself `u` — and the call returns the raw echo `("uw", "uw")`. -/
theorem C7_counterexample :
    (get_transformation_list 'w' telexIM (lc ("uw"))).1 =
        [lc ("u*"), lc ("o*"), lc ("a+"), lc ("<ư")] ∧
    pk_undo_comps defaultConfig 'w' (lc ("uw")) [lc ("u*"), lc ("o*"), lc ("a+"), lc ("<ư")]
        ⟨[], lc ("ư"), []⟩ = some ⟨[], lc ("u"), []⟩ ∧
    (⟨[], lc ("u"), []⟩ : Comps) ≠ ⟨[], [], []⟩ ∧
    process_key (lc ("ư")) 'w' (lc ("uw")) defaultConfig = some (lc ("uw"), lc ("uw")) := by
  decide

/-- C7 amended: the double-trigger compensation strips the trailing `u`
only when, additionally, the key before the two `w`s was not itself `u`.
For u, w, w the horn is undone but the `u` is kept and the call echoes
`("uw", "uw")`; for w, w (no preceding `u`) the removal does fire; an
intervening key between the two triggers prevents the removal. -/
theorem C7_double_trigger :
    pk_undo_comps defaultConfig 'w' (lc ("w")) [lc ("u*"), lc ("o*"), lc ("a+"), lc ("<ư")]
        ⟨[], lc ("ư"), []⟩ = some ⟨[], [], []⟩ ∧
    pk_undo_comps defaultConfig 'w' (lc ("uw")) [lc ("u*"), lc ("o*"), lc ("a+"), lc ("<ư")]
        ⟨[], lc ("ư"), []⟩ = some ⟨[], lc ("u"), []⟩ ∧
    process_key (lc ("ư")) 'w' (lc ("uw")) defaultConfig = some (lc ("uw"), lc ("uw")) ∧
    pk_undo_comps defaultConfig 'w' (lc ("uwc")) [lc ("u*"), lc ("o*"), lc ("a+"), lc ("<ư")]
        ⟨[], lc ("ư"), lc ("c")⟩ = some ⟨[], lc ("u"), lc ("c")⟩ := by
  decide

/-- C9 counterexample: with a table mapping q to the unrecognisable
token-string `zz`, the call fails (`none`, the source's `TypeError` on
unpacking the `None` action) instead of falling back to the literal
insertion `("q", "q")`. -/
theorem C9_counterexample :
    process_key [] 'q' [] malformedConfig = none ∧
    process_key [] 'q' [] malformedConfig ≠ some (lc ("q"), lc ("q")) := by
  decide

/-- C2: whenever a call reaches the validity gate, the result is the raw
history echoed as both outputs exactly when the skip-non-vietnamese flag
is set, the typed key is alphabetic and the oracle rejects the
post-keystroke components; in every other case it is the joined
components with the updated history. -/
theorem C2_validity_gate (s : Str) (k : Char) (f : Str) (cfg : Config) (nc : Comps) (fb : Str)
    (h : pk_pre_gate s k f cfg = some (nc, fb)) :
    process_key s k f cfg =
      if cfg.skipNonViet = true ∧ isalpha k = true ∧ is_valid_combination nc false = false
      then some (fb, fb) else some (join nc, fb) := by
  unfold process_key
  rw [h]

theorem C2_validity_gate_witness :
    process_key (lc ("a")) 'a' (lc ("a")) defaultConfig =
      if defaultConfig.skipNonViet = true ∧ isalpha 'a' = true ∧
          is_valid_combination ⟨[], lc ("â"), []⟩ false = false
      then some (lc ("aa"), lc ("aa")) else some (join ⟨[], lc ("â"), []⟩, lc ("aa")) :=
  C2_validity_gate (lc ("a")) 'a' (lc ("a")) defaultConfig ⟨[], lc ("â"), []⟩ (lc ("aa"))
    (by decide)

/-- C8: when the active input-method name is neither among the built-in
tables nor among the custom tables, the call surfaces the error (`none`,
the source's unbound `im`) and never silently processes the key. -/
theorem C8_unknown_method (s : Str) (k : Char) (f : Str) (cfg : Config)
    (h1 : lookupStr cfg.defaultIMs cfg.inputMethod = none)
    (h2 : ∀ cim, cfg.customIMs = some cim → lookupStr cim cfg.inputMethod = none) :
    process_key s k f cfg = none := by
  have him : pk_lookup_im cfg = none := by
    unfold pk_lookup_im
    rw [h1]
    cases hc : cfg.customIMs with
    | none => rfl
    | some cim => exact h2 cim hc
  unfold process_key pk_pre_gate
  rw [him]

theorem C8_unknown_method_witness :
    process_key [] 'a' [] unknownMethodConfig = none :=
  C8_unknown_method [] 'a' [] unknownMethodConfig (by decide) (fun cim h => nomatch h)

/-- C10: the undo reverser is not total at the empty word — for the empty
component triple and any token decoding to an `ADD_CHAR` action it reads
the last character of the empty joined word and fails (`none`) — while for
any components with a non-empty joined word whose last character does not
match the token's character case-insensitively it returns the components
unchanged. -/
theorem C10_reverse_partiality :
    (∀ (t : Str) (c : Char), get_action t = some (BAction.ADD_CHAR c) →
      reverse ⟨[], [], []⟩ t = none) ∧
    (∀ (comps : Comps) (t : Str) (c : Char), get_action t = some (BAction.ADD_CHAR c) →
      join comps ≠ [] → vToLower ((join comps).getLastD ' ') ≠ vToLower c →
      reverse comps t = some comps) := by
  constructor
  · intro t c h
    unfold reverse
    rw [h]
    rfl
  · intro comps t c h hne hlast
    unfold reverse
    rw [h]
    cases hg : (join comps).getLast? with
    | none => exact absurd (List.getLast?_eq_none_iff.mp hg) hne
    | some l =>
      have hl : l = (join comps).getLastD ' ' := by
        rw [List.getLastD_eq_getLast?, hg]; rfl
      have hfin : ¬ (vToLower l = vToLower c) := by rw [hl]; exact hlast
      simp only [hfin, if_false]

theorem C10_reverse_partiality_witness :
    reverse ⟨[], [], []⟩ (lc ("+a")) = none ∧
    reverse ⟨[], lc ("b"), []⟩ (lc ("+a")) = some ⟨[], lc ("b"), []⟩ :=
  ⟨C10_reverse_partiality.1 (lc ("+a")) 'a' (by decide),
   C10_reverse_partiality.2 ⟨[], lc ("b"), []⟩ (lc ("+a")) 'a' (by decide) (by decide) (by decide)⟩

theorem foldlM_transform_none (ts : List Str) (c : Comps) (t : Str)
    (ht : t ∈ ts) (ha : get_action t = none) :
    ts.foldlM transform c = none := by
  induction ts generalizing c with
  | nil => cases ht
  | cons a rest ih =>
    rw [List.foldlM_cons]
    cases ht with
    | head =>
      have hta : transform c t = none := by unfold transform; rw [ha]
      rw [hta]
      rfl
    | tail _ hmem =>
      cases hta : transform c a with
      | none => rfl
      | some c' => exact ih c' hmem

/-- C9 amended: when some candidate token resolved for the key decodes to
no recognised action shape, the whole call fails (`none`) — the engine
applies no unintended action, but it does not fall back to literal
insertion of the typed character. -/
theorem C9_malformed_token (s : Str) (k : Char) (f : Str) (cfg : Config) (im : IMTable)
    (t : Str) (him : pk_lookup_im cfg = some im)
    (ht : t ∈ (get_transformation_list k im f).1) (ha : get_action t = none) :
    process_key s k f cfg = none := by
  unfold process_key pk_pre_gate
  rw [him]
  simp only [foldlM_transform_none (get_transformation_list k im f).1 (separate s) t ht ha]

theorem C9_malformed_token_witness :
    process_key [] 'q' [] malformedConfig = none :=
  C9_malformed_token [] 'q' [] malformedConfig [('q', IMEntry.one (lc ("zz")))] (lc ("zz"))
    (by decide) (by decide) (by decide)

/-- C3 amended: the raw key is appended to the components via the append
operation exactly in the branch where folding the candidates changed
nothing (the no-op/undo branch); when a candidate transformation changed
the components, the key's effect is the transformation itself and no
append happens — the pre-gate components are the fold result as is. -/
theorem C3_append_branches (s : Str) (k : Char) (f : Str) (cfg : Config) (im : IMTable)
    (folded : Comps) (him : pk_lookup_im cfg = some im)
    (hf : ((get_transformation_list k im f).1).foldlM transform (separate s) = some folded) :
    (folded ≠ separate s → pk_pre_gate s k f cfg = some (folded, f ++ [k])) ∧
    (∀ mid, folded = separate s →
      pk_undo_comps cfg k f (get_transformation_list k im f).1 folded = some mid →
      pk_pre_gate s k f cfg = some (append_comps mid k, if folded = mid then f ++ [k] else f)) := by
  constructor
  · intro hne
    unfold pk_pre_gate
    rw [him]
    simp only [hf]
    rw [if_neg hne]
  · intro mid heq hu
    unfold pk_pre_gate
    rw [him]
    simp only [hf]
    rw [if_pos heq, hu]

theorem C3_append_branches_witness :
    pk_pre_gate (lc ("u")) 'w' (lc ("u")) defaultConfig = some (⟨[], lc ("ư"), []⟩, lc ("uw")) :=
  (C3_append_branches (lc ("u")) 'w' (lc ("u")) defaultConfig telexIM ⟨[], lc ("ư"), []⟩
    (by decide) (by decide)).1 (by decide)

/-- C6: whenever `transform` successfully applies a mark token (the token
decodes to an `ADD_MARK`, the oe/oa re-route does not intervene and the
mark guard accepts) and the resulting nucleus is accent-stripped
lower-cased "ươ" with an empty coda and an onset among "", "h", "th",
"kh", the result is exactly the demotion of the nucleus's first letter to
u/U — with the previously held accent re-applied — followed by the usual
renormalisation. -/
theorem C6_uo_demotion (comps : Comps) (trans : Str) (m : Mark)
    (h0 : get_action trans = some (BAction.ADD_MARK m))
    (h1 : ¬(comps.c2 = [] ∧ ((markStrip comps.c1).map vToLower) ∈ [lc ("oe"), lc ("oa")] ∧
      trans = lc ("o^")))
    (h2 : is_valid_mark comps trans = true)
    (h3 : ((remove_accent_string (add_mark comps m).c1).map vToLower) = lc ("ươ"))
    (h4 : (add_mark comps m).c2 = [])
    (h5 : ((add_mark comps m).c0.map vToLower) ∈ [([] : Str), lc ("h"), lc ("th"), lc ("kh")]) :
    transform comps trans = some (renorm (demoteUo (add_mark comps m))) := by
  unfold transform
  rw [h0]
  simp only [if_neg h1, if_pos h2, if_pos (And.intro h3 (And.intro h4 h5)), if_true]

theorem C6_uo_demotion_witness :
    transform ⟨lc ("h"), lc ("uo"), []⟩ (lc ("o*")) = some ⟨lc ("h"), lc ("uơ"), []⟩ :=
  (C6_uo_demotion ⟨lc ("h"), lc ("uo"), []⟩ (lc ("o*")) Mark.HORN (by decide) (by decide)
    (by decide) (by decide) (by decide) (by decide)).trans (by decide)

set_option maxRecDepth 8192

theorem composeChar_ne_w (b : Char) (m : Mark) (a : Accent) (r : Char)
    (h : composeChar b m a = some r) : r ≠ 'w' := by
  have hall : ∀ x ∈ charTable, x.c ≠ 'w' := by decide
  unfold composeChar at h
  cases hf : charTable.find?
      (fun e => decide (e.b = b) && decide (e.m = m) && decide (e.a = a)) with
  | none => rw [hf] at h; cases h
  | some e =>
    rw [hf] at h
    have hm := List.mem_of_find?_eq_some hf
    have : e.c = r := by simpa using h
    rw [← this]
    exact hall e hm

theorem vToLower_eq_w (k : Char) (h : vToLower k = 'w') : k = 'w' ∨ k = 'W' := by
  have hall : ∀ x ∈ charTable, x.c ≠ 'w' := by decide
  unfold vToLower at h
  cases hf : findEntry k with
  | some e =>
    exfalso
    rw [hf] at h
    change (if isAsciiUpper e.b = true then (composeChar (asciiLower e.b) e.m e.a).getD k
      else k) = 'w' at h
    have hk : k ≠ 'w' := by
      unfold findEntry at hf
      have hm := List.mem_of_find?_eq_some hf
      have hc : e.c = k := by simpa using List.find?_some hf
      rw [← hc]
      exact hall e hm
    by_cases hu : isAsciiUpper e.b = true
    · rw [if_pos hu] at h
      cases hcc : composeChar (asciiLower e.b) e.m e.a with
      | none => rw [hcc] at h; exact hk h
      | some r =>
        rw [hcc] at h
        exact composeChar_ne_w _ _ _ r hcc h
    · rw [if_neg hu] at h
      exact hk h
  | none =>
    rw [hf] at h
    change asciiLower k = 'w' at h
    unfold asciiLower at h
    cases hfa : asciiUpperLower.find? (fun p => decide (p.1 = k)) with
    | none => rw [hfa] at h; left; exact h
    | some p =>
      rw [hfa] at h
      have hm := List.mem_of_find?_eq_some hfa
      have h1 : p.1 = k := by simpa using List.find?_some hfa
      have h2 : p.2 = 'w' := by simpa using h
      have hW : ∀ x ∈ asciiUpperLower, x.2 = 'w' → x.1 = 'W' := by decide
      right
      rw [← h1]
      exact hW p hm h2

theorem lookupIM_mem (l : IMTable) (c : Char) (e : IMEntry) (h : lookupIM l c = some e) :
    (c, e) ∈ l := by
  induction l with
  | nil => cases h
  | cons p rest ih =>
    obtain ⟨k, e'⟩ := p
    unfold lookupIM at h
    by_cases hc : c = k
    · rw [if_pos hc] at h
      cases h
      rw [hc]
      exact List.mem_cons_self _ _
    · rw [if_neg hc] at h
      exact List.mem_cons_of_mem _ (ih h)

theorem lookupIM_imUpdate_ne (l : IMTable) (c c' : Char) (e : IMEntry) (h : c' ≠ c) :
    lookupIM (imUpdate l c e) c' = lookupIM l c' := by
  induction l with
  | nil => rfl
  | cons p rest ih =>
    obtain ⟨k, e0⟩ := p
    unfold imUpdate
    by_cases hc : c = k
    · rw [if_pos hc]
      unfold lookupIM
      rw [if_neg (hc ▸ h), if_neg (hc ▸ h)]
    · rw [if_neg hc]
      unfold lookupIM
      by_cases h2 : c' = k
      · rw [if_pos h2, if_pos h2]
      · rw [if_neg h2, if_neg h2]
        exact ih

theorem telexMutated_eq_update :
    telexMutated = imUpdate telexIM 'w'
      (IMEntry.many [lc ("u*"), lc ("o*"), lc ("a+"), lc ("<Ư")]) := by
  decide

set_option maxHeartbeats 2000000 in
theorem gtlAux_mut (fuel : Nat) (k : Char) (fb : Str) :
    (gtlAux fuel k telexMutated fb).1 = (gtlAux fuel k telexIM fb).1 := by
  by_cases hw : vToLower k = 'w'
  · rcases vToLower_eq_w k hw with rfl | rfl
    · unfold gtlAux
      rfl
    · unfold gtlAux
      rfl
  · unfold gtlAux
    dsimp only
    rw [telexMutated_eq_update, lookupIM_imUpdate_ne _ _ _ _ hw]
    cases hl : lookupIM telexIM (vToLower k) with
    | none => rfl
    | some e =>
      have hm := lookupIM_mem telexIM (vToLower k) e hl
      simp only [telexIM, List.mem_cons, List.not_mem_nil, or_false, Prod.mk.injEq] at hm
      rcases hm with ⟨hk, rfl⟩ | ⟨hk, rfl⟩ | ⟨hk, rfl⟩ | ⟨hk, rfl⟩ | ⟨hk, rfl⟩ | ⟨hk, rfl⟩ |
        ⟨hk, rfl⟩ | ⟨hk, rfl⟩ | ⟨hk, rfl⟩ | ⟨hk, rfl⟩ | ⟨hk, rfl⟩ | ⟨hk, rfl⟩ | ⟨hk, rfl⟩ |
        ⟨hk, rfl⟩
      all_goals first
        | rfl
        | (exact absurd hk hw)
        | (by_cases ha : isalpha k = true <;>
            simp only [adjustTrans, ha, if_true, if_false] <;> rfl)

theorem pk_undo_comps_inputMethod_congr (cfg cfg' : Config)
    (h : cfg.inputMethod = cfg'.inputMethod) (k : Char) (fb : Str) (ts : List Str)
    (nc : Comps) : pk_undo_comps cfg k fb ts nc = pk_undo_comps cfg' k fb ts nc := by
  unfold pk_undo_comps telexWwCond
  simp only [h]

/-- C4 amended: the in-place case rewrite of the aliased telex candidate
list (witnessed against the claim by `telexMutated`) never changes any
result: resolving any key against the mutated table yields the same
candidate list as against the pristine table, and `process_key` returns
the same output under the mutated configuration as under the default one
for every argument — so equal-argument calls give equal results at any
two points of a call sequence. -/
theorem C4_mutation_immaterial :
    (∀ (fuel : Nat) (k : Char) (fb : Str),
        (gtlAux fuel k telexMutated fb).1 = (gtlAux fuel k telexIM fb).1) ∧
    (∀ (s : Str) (k : Char) (f : Str),
        process_key s k f mutatedConfig = process_key s k f defaultConfig) := by
  refine ⟨gtlAux_mut, ?_⟩
  intro s k f
  have hpre : pk_pre_gate s k f mutatedConfig = pk_pre_gate s k f defaultConfig := by
    unfold pk_pre_gate
    have h1 : pk_lookup_im mutatedConfig = some telexMutated := by decide
    have h2 : pk_lookup_im defaultConfig = some telexIM := by decide
    rw [h1, h2]
    dsimp only
    have hts : (get_transformation_list k telexMutated f).1 =
        (get_transformation_list k telexIM f).1 := gtlAux_mut f.length k f
    rw [hts]
    simp only [pk_undo_comps_inputMethod_congr mutatedConfig defaultConfig rfl]
  unfold process_key
  rw [hpre]
  rfl
